import Mathlib

/-!
Verification of the GoldenSeed compression codec (`src/gq/codec.py`).

Bytes are modelled as `List Nat` (each entry a byte value). External runtime
components that are not part of this repository's codec source are passed as
explicit parameters together with their documented contracts:

* `sha : List Nat → List Nat` models `hashlib.sha256(...).digest()`; the codec
  stores the digest as a 64-character hex string, which we model directly as
  the 32 digest bytes (hex encoding of a 32-byte digest is a bijection, and
  `to_binary`/`from_binary` convert through `bytes.fromhex`/`.hex` anyway).
* `zc : List Nat → List Nat` and `zd : List Nat → Option (List Nat)` model
  `zlib.compress` / `zlib.decompress` (`none` models a raised decompression
  error).
* `utf8enc : String → List Nat` / `utf8dec : List Nat → String` model
  `str.encode("utf-8")` / `bytes.decode("utf-8")`.
* `G : String → Nat → List Nat` models the deterministic stream generator.
  Modelled from the spec: the module `universal_qkd` (functions
  `universal_qkd_generator`, `collect_sifted_bits`, `xor_fold_hardening` and
  the seed hex constants) is not under `src/`; per the spec the generator is a
  pure function of the hex seed producing a deterministic unbounded sequence
  of fixed-size 16-byte chunks (`STREAM_CHUNK_SIZE`), identical for the
  scanning entry point and the raw reading entry point.
* `reg : String → Option String` models the `SEED_REGISTRY` dict, whose hex
  seed constants also live in the missing `universal_qkd` module.

Python wall-clock timestamps (`time.time()`) are modelled as the constant `0`:
no codec operation reads `created_at`, so this cannot affect any property
about reconstruction.
-/

namespace GQ

/-- Magic bytes `b"GQSE"` for the binary envelope format. -/
def ENVELOPE_MAGIC : List Nat := [71, 81, 83, 69]

/-- Envelope format version. -/
def ENVELOPE_VERSION : Nat := 1

/-- Chunk size from the generator (16 bytes per yield). -/
def STREAM_CHUNK_SIZE : Nat := 16

/-- Typed failures of the codec (the Python source raises `ValueError` /
`KeyError`; the spec names them as below). -/
inductive GQError where
  | UnknownSeed
  | InvalidMagic
  | Malformed
  | ChecksumMismatch
  | NoDelta
  | CatalogMode
  | UnknownMode
  | Decompression
  | KeyNotFound
deriving DecidableEq

/-- Model of the `metadata` dict: the codec only ever writes these keys. -/
structure Metadata where
  scan_chunks : Option Nat := none
  delta_raw_size : Option Nat := none
  delta_compressed_size : Option Nat := none
deriving DecidableEq

/-- The `SeedEnvelope` dataclass. `checksum` is modelled as the 32 digest
bytes (the Python field holds their hex string). -/
structure SeedEnvelope where
  version : Nat := ENVELOPE_VERSION
  seed_id : String := "golden_ratio"
  seed_hex : Option String := none
  offset : Nat := 0
  length : Nat := 0
  checksum : List Nat := []
  mode : String := "stream"
  delta : Option (List Nat) := none
  delta_compressed : Option (List Nat) := none
  catalog_key : Option String := none
  metadata : Metadata := {}
  created_at : Nat := 0
deriving DecidableEq

/-- Python truthiness of an optional string (`None` and `""` are falsy). -/
def strTruthy : Option String → Bool
  | none => false
  | some s => !s.isEmpty

/-- `_resolve_seed_hex`: explicit hex wins when truthy, else registry lookup,
else `Unknown seed_id` error. -/
def _resolve_seed_hex (reg : String → Option String) (seed_id : String)
    (seed_hex : Option String) : Except GQError String :=
  if strTruthy seed_hex then .ok (seed_hex.getD "")
  else
    match reg seed_id with
    | some h => .ok h
    | none => .error .UnknownSeed

/-- Concatenation of the first `k` generator chunks (the scan buffer after
`k` iterations, and the prefix of the logical infinite stream). -/
def prefixBytes (G : Nat → List Nat) : Nat → List Nat
  | 0 => []
  | k + 1 => prefixBytes G k ++ G k

/-- Byte at absolute position `k` of the logical infinite stream. -/
def byteAt (G : Nat → List Nat) (k : Nat) : Nat :=
  (G (k / 16)).getD (k % 16) 0

/-- The chunk-walking loop of `_generate_stream_bytes`: skip whole chunks
below `skip`, trim chunk `skip` to `start`, accumulate until `length` bytes
are available.  `fuel` bounds the `while True` generator; the caller passes
enough fuel for the loop to reach its `break`. -/
def genLoop (G : Nat → List Nat) (skip start length : Nat) :
    Nat → Nat → List Nat → List Nat
  | 0, _, acc => acc
  | fuel + 1, i, acc =>
    if i < skip then genLoop G skip start length fuel (i + 1) acc
    else
      let acc' := if i = skip then acc ++ (G i).drop start else acc ++ G i
      if length ≤ acc'.length then acc'
      else genLoop G skip start length fuel (i + 1) acc'

/-- `_generate_stream_bytes(seed_hex, offset, length)`: a specific segment of
the deterministic stream (`G` is the chunk sequence of the resolved seed). -/
def _generate_stream_bytes (G : Nat → List Nat) (offset length : Nat) : List Nat :=
  if length = 0 then []
  else
    let skip := offset / STREAM_CHUNK_SIZE
    let start := offset % STREAM_CHUNK_SIZE
    (genLoop G skip start length (skip + length + 1) 0 []).take length

/-- Python `bytes.find`: index of the leftmost occurrence of `needle` as a
contiguous slice of `hay`, `none` for `-1`. -/
def bytesFind (hay needle : List Nat) : Option Nat :=
  (List.range (hay.length + 1 - needle.length)).find?
    (fun p => decide ((hay.drop p).take needle.length = needle))

/-- The stream-match scan loop of `encode`: accumulate chunks, after each
chunk search the buffer for `data`; returns the match offset together with
the number of chunks produced (`chunk_idx + 1`). -/
def scanLoop (G : Nat → List Nat) (data : List Nat) :
    Nat → Nat → List Nat → Option (Nat × Nat)
  | 0, _, _ => none
  | fuel + 1, i, buf =>
    let buf' := buf ++ G i
    if data.length ≤ buf'.length then
      match bytesFind buf' data with
      | some pos => some (pos, i + 1)
      | none => scanLoop G data fuel (i + 1) buf'
    else scanLoop G data fuel (i + 1) buf'

/-- `encode`, instrumented with the number of generator chunks produced by
the stream-match scan (the envelope's `scan_chunks` metadata on the stream
path; `scan_depth` chunks were produced when the scan fails over to delta
mode).  `scan_depth` is a Python `int`, hence `Int`. -/
def encodeScan (G : String → Nat → List Nat) (reg : String → Option String)
    (sha : List Nat → List Nat) (zc : List Nat → List Nat)
    (data : List Nat) (seed_id : String) (seed_hex : Option String)
    (scan_depth : Int) : Except GQError (SeedEnvelope × Nat) :=
  match _resolve_seed_hex reg seed_id seed_hex with
  | .error e => .error e
  | .ok resolved_hex =>
    let data_checksum := sha data
    let data_len := data.length
    match scanLoop (G resolved_hex) data scan_depth.toNat 0 [] with
    | some (pos, used) =>
      .ok ({ seed_id := seed_id,
             seed_hex := if strTruthy seed_hex then seed_hex else none,
             offset := pos, length := data_len, checksum := data_checksum,
             mode := "stream",
             metadata := { scan_chunks := some used } }, used)
    | none =>
      let stream_segment := _generate_stream_bytes (G resolved_hex) 0 data_len
      let delta := List.zipWith (fun a b => a ^^^ b) data stream_segment
      let delta_compressed := zc delta
      .ok ({ seed_id := seed_id,
             seed_hex := if strTruthy seed_hex then seed_hex else none,
             offset := 0, length := data_len, checksum := data_checksum,
             mode := "delta", delta := some delta,
             delta_compressed := some delta_compressed,
             metadata := { delta_raw_size := some delta.length,
                           delta_compressed_size := some delta_compressed.length } },
            scan_depth.toNat)

/-- `encode(data, seed_id, seed_hex, scan_depth)` as in the source (chunk
counter projected away). -/
def encode (G : String → Nat → List Nat) (reg : String → Option String)
    (sha : List Nat → List Nat) (zc : List Nat → List Nat)
    (data : List Nat) (seed_id : String) (seed_hex : Option String)
    (scan_depth : Int) : Except GQError SeedEnvelope :=
  (encodeScan G reg sha zc data seed_id seed_hex scan_depth).map (·.1)

/-- The reconstruction phase of `decode`, before the checksum check. -/
def reconstruct (G : String → Nat → List Nat) (reg : String → Option String)
    (zd : List Nat → Option (List Nat)) (envelope : SeedEnvelope) :
    Except GQError (List Nat) :=
  match _resolve_seed_hex reg envelope.seed_id envelope.seed_hex with
  | .error e => .error e
  | .ok resolved_hex =>
    if envelope.mode = "stream" then
      .ok (_generate_stream_bytes (G resolved_hex) envelope.offset envelope.length)
    else if envelope.mode = "delta" then
      let stream_segment :=
        _generate_stream_bytes (G resolved_hex) envelope.offset envelope.length
      match envelope.delta_compressed with
      | some dc =>
        match zd dc with
        | some delta => .ok (List.zipWith (fun a b => a ^^^ b) stream_segment delta)
        | none => .error .Decompression
      | none =>
        match envelope.delta with
        | some delta => .ok (List.zipWith (fun a b => a ^^^ b) stream_segment delta)
        | none => .error .NoDelta
    else if envelope.mode = "catalog" then .error .CatalogMode
    else .error .UnknownMode

/-- `decode(envelope)`: reconstruct, then verify the checksum. -/
def decode (G : String → Nat → List Nat) (reg : String → Option String)
    (zd : List Nat → Option (List Nat)) (sha : List Nat → List Nat)
    (envelope : SeedEnvelope) : Except GQError (List Nat) :=
  match reconstruct G reg zd envelope with
  | .error e => .error e
  | .ok data =>
    if sha data ≠ envelope.checksum then .error .ChecksumMismatch
    else .ok data

/-- Model of the JSON dict produced by `to_dict` (`Option` fields model
key presence; delta payloads are hex strings in JSON, modelled as the bytes
they encode since hex encoding is a bijection). -/
structure EnvelopeDict where
  version : Nat
  seed_id : String
  offset : Nat
  length : Nat
  checksum : List Nat
  mode : String
  metadata : Metadata
  created_at : Nat
  seed_hex : Option String := none
  delta_compressed : Option (List Nat) := none
  delta : Option (List Nat) := none
  catalog_key : Option String := none
deriving DecidableEq

/-- `SeedEnvelope.to_dict`: always-present scalar fields, `seed_hex` and
`catalog_key` only when truthy, `delta_compressed` when set, else `delta`
when set. -/
def to_dict (e : SeedEnvelope) : EnvelopeDict :=
  { version := e.version, seed_id := e.seed_id, offset := e.offset,
    length := e.length, checksum := e.checksum, mode := e.mode,
    metadata := e.metadata, created_at := e.created_at,
    seed_hex := if strTruthy e.seed_hex then e.seed_hex else none,
    delta_compressed := e.delta_compressed,
    delta := match e.delta_compressed with
             | some _ => none
             | none => e.delta,
    catalog_key := if strTruthy e.catalog_key then e.catalog_key else none }

/-- `SeedEnvelope.from_dict` (missing keys of the always-present fields never
occur on `to_dict` output, so the dict model makes them required). -/
def from_dict (d : EnvelopeDict) : SeedEnvelope :=
  { version := d.version, seed_id := d.seed_id, seed_hex := d.seed_hex,
    offset := d.offset, length := d.length, checksum := d.checksum,
    mode := d.mode, catalog_key := d.catalog_key, metadata := d.metadata,
    created_at := d.created_at,
    delta_compressed := d.delta_compressed,
    delta := match d.delta_compressed with
             | some _ => none
             | none => d.delta }

/-- Little-endian encoding of `n` on `w` bytes (`struct.pack` of `<H`, `<I`,
`<Q`; out-of-range values are modelled by the byte-wise truncation the
byte extraction performs). -/
def leEncode : Nat → Nat → List Nat
  | 0, _ => []
  | w + 1, n => n % 256 :: leEncode w (n / 256)

/-- Little-endian decoding (`struct.unpack` on actual byte values). -/
def leDecode : List Nat → Nat
  | [] => 0
  | b :: r => b + 256 * leDecode r

/-- Mode byte written by `to_binary`: `{"stream": 0, "delta": 1,
"catalog": 2}.get(mode, 0)`. -/
def modeByte (m : String) : Nat :=
  if m = "stream" then 0 else if m = "delta" then 1
  else if m = "catalog" then 2 else 0

/-- Mode string read by `from_binary`: `{0: "stream", 1: "delta",
2: "catalog"}.get(mode_byte, "stream")`. -/
def modeStr (b : Nat) : String :=
  if b = 0 then "stream" else if b = 1 then "delta"
  else if b = 2 then "catalog" else "stream"

/-- `SeedEnvelope.to_binary`.  Raw deltas are compressed with `zc` before
storage; a missing delta stores a zero length.  (`bytearray.append` requires
`version < 256`; codec-produced envelopes always have `version = 1`.) -/
def to_binary (utf8enc : String → List Nat) (zc : List Nat → List Nat)
    (e : SeedEnvelope) : List Nat :=
  let seed_id_bytes := utf8enc e.seed_id
  ENVELOPE_MAGIC ++ [e.version, modeByte e.mode]
    ++ leEncode 2 seed_id_bytes.length ++ seed_id_bytes
    ++ leEncode 8 e.offset ++ leEncode 8 e.length
    ++ e.checksum
    ++ (match e.delta_compressed with
        | some dc => leEncode 4 dc.length ++ dc
        | none =>
          match e.delta with
          | some d => leEncode 4 (zc d).length ++ zc d
          | none => leEncode 4 0)

/-- `SeedEnvelope.from_binary`.  Python slices clamp silently; indexing and
`struct.unpack_from` on a too-short buffer raise, modelled as `Malformed`. -/
def from_binary (utf8dec : List Nat → String) (data : List Nat) :
    Except GQError SeedEnvelope :=
  if data.take 4 ≠ ENVELOPE_MAGIC then .error .InvalidMagic
  else if data.length < 8 then .error .Malformed
  else
    let version := data.getD 4 0
    let mode := modeStr (data.getD 5 0)
    let sid_len := leDecode ((data.drop 6).take 2)
    let seed_id := utf8dec ((data.drop 8).take sid_len)
    if data.length < 8 + sid_len + 16 then .error .Malformed
    else
      let offset := leDecode ((data.drop (8 + sid_len)).take 8)
      let length := leDecode ((data.drop (8 + sid_len + 8)).take 8)
      let checksum := (data.drop (8 + sid_len + 16)).take 32
      if data.length < 8 + sid_len + 48 + 4 then .error .Malformed
      else
        let delta_len := leDecode ((data.drop (8 + sid_len + 48)).take 4)
        let delta_compressed :=
          if delta_len > 0 then some ((data.drop (8 + sid_len + 52)).take delta_len)
          else none
        .ok { version := version, seed_id := seed_id, offset := offset,
              length := length, checksum := checksum, mode := mode,
              delta_compressed := delta_compressed }

/-- `SeedEnvelope.envelope_size`: length of the binary serialization. -/
def envelope_size (utf8enc : String → List Nat) (zc : List Nat → List Nat)
    (e : SeedEnvelope) : Nat :=
  (to_binary utf8enc zc e).length

/-- `SeedEnvelope.compression_ratio`: `0.0` on a zero-size envelope, else
`length / envelope_size` (floats modelled as rationals). -/
def compression_ratio (utf8enc : String → List Nat) (zc : List Nat → List Nat)
    (e : SeedEnvelope) : ℚ :=
  if envelope_size utf8enc zc e = 0 then 0
  else (e.length : ℚ) / (envelope_size utf8enc zc e : ℚ)

/-- Python `round(x, 2)` modelled as rational rounding to two decimals (the
claims never depend on the tie-breaking rule). -/
def round2 (q : ℚ) : ℚ := (round (q * 100) : ℤ) / 100

/-- The `compression_ratio` entry of `compression_stats`: `none` models the
`float("inf")` reported when `envelope_size == 0`. -/
def compression_stats_ratio (utf8enc : String → List Nat)
    (zc : List Nat → List Nat) (data : List Nat) (e : SeedEnvelope) : Option ℚ :=
  if envelope_size utf8enc zc e > 0 then
    some (round2 ((data.length : ℚ) / (envelope_size utf8enc zc e : ℚ)))
  else none

/-- `SeedCatalog._entries`, modelled as a key-indexed partial map. -/
def SeedCatalog : Type := String → Option SeedEnvelope

/-- Store `env` under `key` (dict assignment). -/
def catalogUpdate (cat : SeedCatalog) (key : String) (env : SeedEnvelope) :
    SeedCatalog :=
  fun k => if k = key then some env else cat k

/-- `SeedCatalog.register`: encode, retag `stream` to `catalog`, record the
key, store. -/
def register (G : String → Nat → List Nat) (reg : String → Option String)
    (sha : List Nat → List Nat) (zc : List Nat → List Nat)
    (cat : SeedCatalog) (key : String) (data : List Nat) (seed_id : String)
    (seed_hex : Option String) (scan_depth : Int) :
    Except GQError (SeedEnvelope × SeedCatalog) :=
  match encode G reg sha zc data seed_id seed_hex scan_depth with
  | .error e => .error e
  | .ok env =>
    let env' := { env with
      mode := if env.mode = "stream" then "catalog" else env.mode,
      catalog_key := some key }
    .ok (env', catalogUpdate cat key env')

/-- `SeedCatalog.decode_entry`: `KeyNotFound` on a missing key; a
catalog-tagged entry is temporarily retagged to `stream` for the `decode`
call, and the `finally` block restores the original mode whether `decode`
returned or raised.  The returned catalog is the post-call entry table. -/
def decode_entry (G : String → Nat → List Nat) (reg : String → Option String)
    (zd : List Nat → Option (List Nat)) (sha : List Nat → List Nat)
    (cat : SeedCatalog) (key : String) :
    Except GQError (List Nat) × SeedCatalog :=
  match cat key with
  | none => (.error .KeyNotFound, cat)
  | some env =>
    let env2 := if env.mode = "catalog" then { env with mode := "stream" } else env
    let during := catalogUpdate cat key env2
    let result := decode G reg zd sha env2
    (result, catalogUpdate during key { env2 with mode := env.mode })

/-! ### Stream reader lemmas

Throughout, `h16` is the 16-byte chunk contract of the generator
(`STREAM_CHUNK_SIZE`). -/

theorem prefixBytes_length (G : Nat → List Nat) (h16 : ∀ i, (G i).length = 16) :
    ∀ k, (prefixBytes G k).length = 16 * k := by
  intro k
  induction k with
  | zero => rfl
  | succ k ih => simp [prefixBytes, ih, h16, Nat.mul_succ]

theorem getD_prefixBytes (G : Nat → List Nat) (h16 : ∀ i, (G i).length = 16) :
    ∀ (m k : Nat), k < 16 * m → (prefixBytes G m).getD k 0 = byteAt G k := by
  intro m
  induction m with
  | zero => intro k hk; omega
  | succ m ih =>
    intro k hk
    have hlen : (prefixBytes G m).length = 16 * m := prefixBytes_length G h16 m
    have hPB : prefixBytes G (m + 1) = prefixBytes G m ++ G m := rfl
    by_cases h : k < 16 * m
    · rw [hPB, List.getD_append _ _ _ _ (by omega), ih k h]
    · rw [hPB, List.getD_append_right _ _ _ _ (by omega), hlen]
      have hdiv : k / 16 = m := by omega
      have hmod : k % 16 = k - 16 * m := by omega
      rw [byteAt, hdiv, hmod]

theorem slice_eq_ofFn (G : Nat → List Nat) (h16 : ∀ i, (G i).length = 16)
    (m pos n : Nat) (h : pos + n ≤ 16 * m) :
    ((prefixBytes G m).drop pos).take n
      = List.ofFn (fun j : Fin n => byteAt G (pos + j.1)) := by
  have hlen : (prefixBytes G m).length = 16 * m := prefixBytes_length G h16 m
  apply List.ext_getElem
  · simp [hlen]; omega
  · intro i h₁ h₂
    have hi : i < n := by simpa using h₂
    have hpi : pos + i < (prefixBytes G m).length := by omega
    rw [List.getElem_take, List.getElem_drop, List.getElem_ofFn,
      ← List.getD_eq_getElem (prefixBytes G m) 0 hpi,
      getD_prefixBytes G h16 m (pos + i) (by omega)]

theorem genLoop_skip (G : Nat → List Nat) (skip start length : Nat) :
    ∀ (d fuel : Nat) (acc : List Nat), d ≤ skip →
      genLoop G skip start length (fuel + d) (skip - d) acc
        = genLoop G skip start length fuel skip acc := by
  intro d
  induction d with
  | zero => intro fuel acc _; rfl
  | succ d ih =>
    intro fuel acc hd
    have h1 : skip - (d + 1) < skip := by omega
    have h2 : skip - (d + 1) + 1 = skip - d := by omega
    show genLoop G skip start length (fuel + d + 1) (skip - (d + 1)) acc = _
    rw [genLoop, if_pos h1, h2, ih fuel acc (by omega)]

theorem genLoop_main (G : Nat → List Nat) (h16 : ∀ i, (G i).length = 16)
    (skip start length offset : Nat)
    (hoff : offset = 16 * skip + start) (hstart : start < 16) :
    ∀ (fuel i : Nat) (acc : List Nat), skip < i →
      acc = (prefixBytes G i).drop offset →
      acc.length < length →
      length ≤ 16 * i - offset + 16 * fuel →
      ∃ m, i ≤ m ∧
        genLoop G skip start length fuel i acc = (prefixBytes G (m + 1)).drop offset ∧
        length ≤ 16 * (m + 1) - offset := by
  intro fuel
  induction fuel with
  | zero =>
    intro i acc hi hacc hlt hfuel
    exfalso
    have : acc.length = 16 * i - offset := by
      rw [hacc, List.length_drop, prefixBytes_length G h16]
    omega
  | succ fuel ih =>
    intro i acc hi hacc hlt hfuel
    have hne1 : ¬ i < skip := by omega
    have hne2 : ¬ i = skip := by omega
    have hoffle : offset ≤ 16 * i := by omega
    have hacc' : acc ++ G i = (prefixBytes G (i + 1)).drop offset := by
      rw [hacc, prefixBytes,
        List.drop_append_of_le_length (by rw [prefixBytes_length G h16]; omega)]
    have hlen' : (acc ++ G i).length = 16 * (i + 1) - offset := by
      simp [hacc, prefixBytes_length G h16, h16]
      omega
    rw [genLoop, if_neg hne1]
    simp only [if_neg hne2]
    by_cases hdone : length ≤ (acc ++ G i).length
    · rw [if_pos hdone]
      exact ⟨i, le_refl i, hacc', by omega⟩
    · rw [if_neg hdone]
      obtain ⟨m, him, hres, hbound⟩ :=
        ih (i + 1) (acc ++ G i) (by omega) hacc' (by omega) (by omega)
      exact ⟨m, by omega, hres, hbound⟩

theorem prefixBytes_succ_drop (G : Nat → List Nat) (h16 : ∀ i, (G i).length = 16)
    (skip start : Nat) :
    (prefixBytes G (skip + 1)).drop (16 * skip + start) = (G skip).drop start := by
  have hPB : prefixBytes G (skip + 1) = prefixBytes G skip ++ G skip := rfl
  have harg : 16 * skip + start = (prefixBytes G skip).length + start := by
    rw [prefixBytes_length G h16]
  rw [hPB, harg, List.drop_append]

theorem gsb_eq_ofFn_aux (G : Nat → List Nat) (h16 : ∀ i, (G i).length = 16)
    (skip start n : Nat) (hstart : start < 16) :
    (genLoop G skip start n (skip + n + 1) 0 []).take n
      = List.ofFn (fun j : Fin n => byteAt G (16 * skip + start + j.1)) := by
  have hrw : skip + n + 1 = (n + 1) + skip := by omega
  have h0 : (0 : Nat) = skip - skip := by omega
  rw [hrw, h0, genLoop_skip G _ _ _ skip (n + 1) [] (le_refl _)]
  rw [genLoop, if_neg (lt_irrefl _)]
  rw [if_pos (rfl : skip = skip), List.nil_append]
  have hfirst : (G skip).drop start = (prefixBytes G (skip + 1)).drop (16 * skip + start) :=
    (prefixBytes_succ_drop G h16 skip start).symm
  have hfl : ((G skip).drop start).length = 16 - start := by simp [h16]
  by_cases hdone : n ≤ ((G skip).drop start).length
  · rw [if_pos hdone, hfirst,
      slice_eq_ofFn G h16 (skip + 1) (16 * skip + start) n (by omega)]
  · rw [if_neg hdone]
    obtain ⟨m, _, hres, hbound⟩ :=
      genLoop_main G h16 skip start n (16 * skip + start) rfl hstart
        n (skip + 1) _ (by omega) hfirst (by omega) (by omega)
    rw [hres, slice_eq_ofFn G h16 (m + 1) (16 * skip + start) n (by omega)]

/-- The stream segment reader, characterized pointwise: `read(offset, n)` is
the byte string `byteAt offset, …, byteAt (offset + n - 1)` of the logical
infinite stream. -/
theorem gsb_eq_ofFn (G : Nat → List Nat) (h16 : ∀ i, (G i).length = 16)
    (offset n : Nat) :
    _generate_stream_bytes G offset n
      = List.ofFn (fun j : Fin n => byteAt G (offset + j.1)) := by
  by_cases hn : n = 0
  · subst hn; simp [_generate_stream_bytes]
  · rw [_generate_stream_bytes, if_neg hn]
    show (genLoop G (offset / 16) (offset % 16) n (offset / 16 + n + 1) 0 []).take n = _
    rw [gsb_eq_ofFn_aux G h16 (offset / 16) (offset % 16) n (Nat.mod_lt _ (by omega))]
    congr 1
    funext j
    congr 1
    omega

/-- Length of a generated segment: always exactly `length` bytes. -/
theorem gsb_length (G : Nat → List Nat) (h16 : ∀ i, (G i).length = 16)
    (offset n : Nat) : (_generate_stream_bytes G offset n).length = n := by
  rw [gsb_eq_ofFn G h16]
  simp

/-! ### Concrete instances used by witness theorems

Small executable stand-ins for the parameterized external components; each
satisfies the corresponding contract hypothesis. -/

namespace W

def G0 : String → Nat → List Nat := fun _ _ => List.replicate 16 0

def reg0 : String → Option String := fun s =>
  if s = "golden_ratio" then some "abc123" else none

def sha0 : List Nat → List Nat := fun l => List.replicate 32 (l.length % 256)

def zc0 : List Nat → List Nat := fun l => 7 :: l

def zd0 : List Nat → Option (List Nat) := fun l =>
  match l with
  | 7 :: r => some r
  | _ => none

def utf8enc0 : String → List Nat := fun s => s.data.map Char.toNat

def utf8dec0 : List Nat → String := fun l => String.mk (l.map Char.ofNat)

theorem G0_len : ∀ (s : String) (i : Nat), (G0 s i).length = 16 := fun _ _ => rfl

theorem zd0_zc0 : ∀ x, zd0 (zc0 x) = some x := fun _ => rfl

end W

/-- C3: for every seed hex string and all offsets `a`, lengths `b` and `c`,
the stream segment reader satisfies
`read(seed, a, b+c) = read(seed, a, b) ++ read(seed, a+b, c)`: stream
segments compose associatively at any split point (given the generator's
16-byte chunk contract). -/
theorem read_segments_compose (G : String → Nat → List Nat) (seed_hex : String)
    (h16 : ∀ i, (G seed_hex i).length = 16) (a b c : Nat) :
    _generate_stream_bytes (G seed_hex) a (b + c)
      = _generate_stream_bytes (G seed_hex) a b
        ++ _generate_stream_bytes (G seed_hex) (a + b) c := by
  rw [gsb_eq_ofFn _ h16, gsb_eq_ofFn _ h16, gsb_eq_ofFn _ h16, List.ofFn_add]
  congr 1
  all_goals exact congrArg List.ofFn (funext fun j => by simp [Nat.add_assoc])

/-- Witness for C3 at a concrete generator and split point. -/
theorem read_segments_compose_witness :
    _generate_stream_bytes (W.G0 "seed") 3 (5 + 9)
      = _generate_stream_bytes (W.G0 "seed") 3 5
        ++ _generate_stream_bytes (W.G0 "seed") (3 + 5) 9 :=
  read_segments_compose W.G0 "seed" (W.G0_len "seed") 3 5 9

/-! ### Stream-match scan lemmas -/

theorem bytesFind_spec (hay needle : List Nat) (pos : Nat)
    (h : bytesFind hay needle = some pos) :
    (hay.drop pos).take needle.length = needle ∧ pos + needle.length ≤ hay.length := by
  have hp := List.find?_some h
  have hmem := List.mem_of_find?_eq_some h
  rw [List.mem_range] at hmem
  exact ⟨of_decide_eq_true hp, by omega⟩

theorem bytesFind_nil (hay : List Nat) : bytesFind hay [] = some 0 := by
  rw [bytesFind]
  have h1 : hay.length + 1 - ([] : List Nat).length = hay.length + 1 := by simp
  rw [h1, List.range_succ_eq_map, List.find?_cons_of_pos _ (by simp)]

theorem scanLoop_some (G : Nat → List Nat) (data : List Nat) :
    ∀ (fuel i : Nat) (buf : List Nat) (pos used : Nat),
      buf = prefixBytes G i →
      scanLoop G data fuel i buf = some (pos, used) →
      ∃ j, i ≤ j ∧ used = j + 1 ∧
        bytesFind (prefixBytes G (j + 1)) data = some pos := by
  intro fuel
  induction fuel with
  | zero =>
    intro i buf pos used hbuf h
    simp [scanLoop] at h
  | succ fuel ih =>
    intro i buf pos used hbuf h
    have hbuf' : buf ++ G i = prefixBytes G (i + 1) := by rw [hbuf]; rfl
    rw [scanLoop] at h
    simp only [hbuf'] at h
    by_cases hlen : data.length ≤ (prefixBytes G (i + 1)).length
    · rw [if_pos hlen] at h
      cases hfind : bytesFind (prefixBytes G (i + 1)) data with
      | some p =>
        rw [hfind] at h
        simp only [Option.some.injEq, Prod.mk.injEq] at h
        exact ⟨i, le_refl i, by omega, by rw [hfind, h.1]⟩
      | none =>
        rw [hfind] at h
        obtain ⟨j, hij, hused, hfound⟩ := ih (i + 1) _ pos used rfl h
        exact ⟨j, by omega, hused, hfound⟩
    · rw [if_neg hlen] at h
      obtain ⟨j, hij, hused, hfound⟩ := ih (i + 1) _ pos used rfl h
      exact ⟨j, by omega, hused, hfound⟩

/-- Resolution only depends on the truthiness-normalized explicit seed, so
the seed reference stored by `encode` resolves like the one it was given. -/
theorem resolve_norm (reg : String → Option String) (seed_id : String)
    (seed_hex : Option String) :
    _resolve_seed_hex reg seed_id (if strTruthy seed_hex then seed_hex else none)
      = _resolve_seed_hex reg seed_id seed_hex := by
  cases hT : strTruthy seed_hex with
  | true => rw [if_pos rfl]
  | false =>
    rw [if_neg (by simp)]
    rw [_resolve_seed_hex, _resolve_seed_hex, hT]
    rfl

theorem zipWith_xor_cancel :
    ∀ (xs ys : List Nat), ys.length = xs.length →
      List.zipWith (fun a b => a ^^^ b) ys
        (List.zipWith (fun a b => a ^^^ b) xs ys) = xs := by
  intro xs
  induction xs with
  | nil => intro ys h; simp
  | cons x xs ih =>
    intro ys h
    cases ys with
    | nil => simp at h
    | cons y ys =>
      simp only [List.zipWith_cons_cons, List.cons.injEq]
      constructor
      · rw [Nat.xor_comm x y, ← Nat.xor_assoc, Nat.xor_self, Nat.zero_xor]
      · exact ih ys (by simpa using h)

theorem decode_encodeScan_roundtrip (G : String → Nat → List Nat)
    (reg : String → Option String) (sha : List Nat → List Nat)
    (zc : List Nat → List Nat) (zd : List Nat → Option (List Nat))
    (data : List Nat) (seed_id : String) (seed_hex : Option String)
    (scan_depth : Int) (env : SeedEnvelope) (used : Nat)
    (h16 : ∀ s i, (G s i).length = 16)
    (hz : ∀ x, zd (zc x) = some x)
    (henv : encodeScan G reg sha zc data seed_id seed_hex scan_depth
              = .ok (env, used)) :
    decode G reg zd sha env = .ok data := by
  cases hres : _resolve_seed_hex reg seed_id seed_hex with
  | error e =>
    rw [encodeScan, hres] at henv
    exact absurd henv (by simp)
  | ok hex =>
    cases hscan : scanLoop (G hex) data scan_depth.toNat 0 [] with
    | some pu =>
      obtain ⟨pos, u2⟩ := pu
      rw [encodeScan, hres] at henv
      simp only [hscan, Except.ok.injEq, Prod.mk.injEq] at henv
      obtain ⟨henv1, -⟩ := henv
      subst henv1
      obtain ⟨j, h0j, hused, hfind⟩ :=
        scanLoop_some (G hex) data scan_depth.toNat 0 [] pos u2 rfl hscan
      obtain ⟨hslice, hbound⟩ := bytesFind_spec _ _ _ hfind
      have hPBlen : (prefixBytes (G hex) (j + 1)).length = 16 * (j + 1) :=
        prefixBytes_length _ (h16 hex) _
      have hread : _generate_stream_bytes (G hex) pos data.length = data := by
        rw [gsb_eq_ofFn _ (h16 hex),
          ← slice_eq_ofFn (G hex) (h16 hex) (j + 1) pos data.length (by omega), hslice]
      rw [decode, reconstruct]
      simp only [resolve_norm, hres]
      simp only [reduceIte, hread]
      simp
    | none =>
      rw [encodeScan, hres] at henv
      simp only [hscan, Except.ok.injEq, Prod.mk.injEq] at henv
      obtain ⟨henv1, -⟩ := henv
      subst henv1
      rw [decode, reconstruct]
      simp only [resolve_norm, hres]
      have hseg : (_generate_stream_bytes (G hex) 0 data.length).length = data.length :=
        gsb_length _ (h16 hex) _ _
      simp only [reduceIte, hz, zipWith_xor_cancel data _ hseg]
      simp

/-- C1: for every byte string `data` (the empty string and arbitrary byte
values included) and every `scan_depth ≥ 1`, decoding the envelope produced
by `encode data scan_depth` returns exactly `data`, whether `encode` chose
stream mode or delta mode (under the generator's 16-byte chunk contract and
the zlib round-trip contract). -/
theorem decode_encode_roundtrip (G : String → Nat → List Nat)
    (reg : String → Option String) (sha : List Nat → List Nat)
    (zc : List Nat → List Nat) (zd : List Nat → Option (List Nat))
    (data : List Nat) (seed_id : String) (seed_hex : Option String)
    (scan_depth : Int) (env : SeedEnvelope)
    (h16 : ∀ s i, (G s i).length = 16)
    (hz : ∀ x, zd (zc x) = some x)
    (_hdepth : 1 ≤ scan_depth)
    (henv : encode G reg sha zc data seed_id seed_hex scan_depth = .ok env) :
    decode G reg zd sha env = .ok data := by
  rw [encode] at henv
  cases hs : encodeScan G reg sha zc data seed_id seed_hex scan_depth with
  | error e => rw [hs] at henv; exact absurd henv (by simp [Except.map])
  | ok p =>
    obtain ⟨env2, used⟩ := p
    rw [hs] at henv
    simp only [Except.map, Except.ok.injEq] at henv
    subst henv
    exact decode_encodeScan_roundtrip G reg sha zc zd data seed_id seed_hex
      scan_depth env2 used h16 hz hs

/-- Witness for C1: a concrete delta-mode round trip. -/
theorem decode_encode_roundtrip_witness :
    decode W.G0 W.reg0 W.zd0 W.sha0
      { seed_id := "golden_ratio", seed_hex := none, offset := 0, length := 3,
        checksum := W.sha0 [1, 2, 3], mode := "delta", delta := some [1, 2, 3],
        delta_compressed := some [7, 1, 2, 3],
        metadata := { delta_raw_size := some 3, delta_compressed_size := some 4 } }
      = .ok [1, 2, 3] :=
  decode_encode_roundtrip W.G0 W.reg0 W.sha0 W.zc0 W.zd0 [1, 2, 3] "golden_ratio"
    none 1 _ W.G0_len W.zd0_zc0 (by decide) rfl

/-- Reconstruction never reads the checksum field. -/
theorem reconstruct_checksum_irrel (G : String → Nat → List Nat)
    (reg : String → Option String) (zd : List Nat → Option (List Nat))
    (e : SeedEnvelope) (c : List Nat) :
    reconstruct G reg zd { e with checksum := c } = reconstruct G reg zd e := rfl

/-- C2: whenever the stored checksum differs from the SHA-256 digest of the
bytes reconstructed for an envelope, `decode` fails with `ChecksumMismatch`
instead of returning bytes; in particular, replacing the checksum field of
any decodable envelope by a different value always makes `decode` fail. -/
theorem decode_checksum_guard (G : String → Nat → List Nat)
    (reg : String → Option String) (zd : List Nat → Option (List Nat))
    (sha : List Nat → List Nat) (e : SeedEnvelope) (b : List Nat)
    (hb : reconstruct G reg zd e = .ok b) :
    (sha b ≠ e.checksum → decode G reg zd sha e = .error .ChecksumMismatch) ∧
    (∀ c, c ≠ e.checksum → decode G reg zd sha e = .ok b →
       decode G reg zd sha { e with checksum := c } = .error .ChecksumMismatch) := by
  constructor
  · intro hne
    simp only [decode, hb]
    rw [if_pos hne]
  · intro c hc hdec
    have hckeq : sha b = e.checksum := by
      by_cases hsb : sha b = e.checksum
      · exact hsb
      · simp only [decode, hb] at hdec
        rw [if_pos hsb] at hdec
        cases hdec
    simp only [decode, reconstruct_checksum_irrel, hb]
    rw [if_pos (by
      show ¬ sha b = ({ e with checksum := c } : SeedEnvelope).checksum
      show ¬ sha b = c
      rw [hckeq]
      exact fun h => hc h.symm)]

/-- Witness for C2: tampering the checksum of a concrete decodable
stream-mode envelope makes decode fail. -/
theorem decode_checksum_guard_witness :
    decode W.G0 W.reg0 W.zd0 W.sha0
      { seed_id := "golden_ratio", offset := 0, length := 2,
        checksum := [], mode := "stream" } = .error .ChecksumMismatch :=
  (decode_checksum_guard W.G0 W.reg0 W.zd0 W.sha0
      { seed_id := "golden_ratio", offset := 0, length := 2,
        checksum := W.sha0 [0, 0], mode := "stream" } [0, 0] rfl).2
    [] (by decide) rfl

/-- C9: any buffer that carries the magic bytes and is long enough to parse
is accepted by `from_binary`, and a mode byte other than 0, 1, 2 is silently
interpreted as mode `stream` rather than rejected. -/
theorem from_binary_mode_lenient (utf8dec : List Nat → String) (data : List Nat)
    (hmagic : data.take 4 = ENVELOPE_MAGIC)
    (hlen : 8 + leDecode ((data.drop 6).take 2) + 52 ≤ data.length)
    (hmb : data.getD 5 0 ≠ 0 ∧ data.getD 5 0 ≠ 1 ∧ data.getD 5 0 ≠ 2) :
    ∃ e, from_binary utf8dec data = .ok e ∧ e.mode = "stream" := by
  simp only [from_binary, hmagic]
  rw [if_neg (by simp), if_neg (by omega), if_neg (by omega), if_neg (by omega)]
  exact ⟨_, rfl, by rw [modeStr, if_neg hmb.1, if_neg hmb.2.1, if_neg hmb.2.2]⟩

/-- Witness for C9: a 60-byte buffer with mode byte 7 parses as stream. -/
theorem from_binary_mode_lenient_witness :
    ∃ e, from_binary W.utf8dec0
        (71 :: 81 :: 83 :: 69 :: 1 :: 7 :: List.replicate 54 0) = .ok e ∧
      e.mode = "stream" :=
  from_binary_mode_lenient W.utf8dec0
    (71 :: 81 :: 83 :: 69 :: 1 :: 7 :: List.replicate 54 0)
    (by decide) (by decide) (by decide)

/-- C10: with any `scan_depth ≤ 0`, `encode` consumes zero generator chunks
(no stream-match scan at all) and always returns a delta-mode envelope, for
every input including stream segments and the empty string. -/
theorem encode_nonpositive_depth (G : String → Nat → List Nat)
    (reg : String → Option String) (sha : List Nat → List Nat)
    (zc : List Nat → List Nat) (data : List Nat) (seed_id : String)
    (seed_hex : Option String) (scan_depth : Int) (hex : String)
    (hres : _resolve_seed_hex reg seed_id seed_hex = .ok hex)
    (hk : scan_depth ≤ 0) :
    ∃ env, encodeScan G reg sha zc data seed_id seed_hex scan_depth
        = .ok (env, 0) ∧ env.mode = "delta" := by
  have h0 : scan_depth.toNat = 0 := by omega
  simp only [encodeScan, hres, h0]
  exact ⟨_, rfl, rfl⟩

/-- Witness for C10: scan depth `-3` on a segment of the all-zero stream
still produces a delta envelope with zero chunks scanned. -/
theorem encode_nonpositive_depth_witness :
    ∃ env, encodeScan W.G0 W.reg0 W.sha0 W.zc0 [0, 0] "golden_ratio" none (-3)
        = .ok (env, 0) ∧ env.mode = "delta" :=
  encode_nonpositive_depth W.G0 W.reg0 W.sha0 W.zc0 [0, 0] "golden_ratio" none
    (-3) "abc123" rfl (by decide)

/-- Concrete envelope produced by `encode` on empty input (C6). -/
def W.env6 : SeedEnvelope :=
  { seed_id := "golden_ratio", seed_hex := none, offset := 0, length := 0,
    checksum := W.sha0 [], mode := "stream", metadata := { scan_chunks := some 1 } }

/-- C6 counterexample: with the default scan depth 1000, encoding the empty
string does return a stream envelope of length 0, but one generator chunk IS
produced for the match search (the empty string is found in the first
scanned chunk, `scan_chunks = 1`), refuting "no generator chunks are
produced". -/
theorem encode_empty_counterexample :
    ¬ (∀ r : SeedEnvelope × Nat,
        encodeScan W.G0 W.reg0 W.sha0 W.zc0 [] "golden_ratio" none 1000 = .ok r →
        r.1.mode = "stream" ∧ r.1.length = 0 ∧ r.2 = 0) := by
  intro h
  have hval : encodeScan W.G0 W.reg0 W.sha0 W.zc0 [] "golden_ratio" none 1000
      = .ok (W.env6, 1) := rfl
  exact absurd (h (W.env6, 1) hval).2.2 (by decide)

/-- C6 amended: for every resolvable seed and every `scan_depth ≥ 1`,
encoding the zero-length input returns `mode = stream`, `length = 0`,
`offset = 0`, with exactly one generator chunk produced (the empty string
matches at position 0 of the first scanned chunk). -/
theorem encode_empty_stream (G : String → Nat → List Nat)
    (reg : String → Option String) (sha : List Nat → List Nat)
    (zc : List Nat → List Nat) (seed_id : String) (seed_hex : Option String)
    (scan_depth : Int) (hex : String)
    (hres : _resolve_seed_hex reg seed_id seed_hex = .ok hex)
    (hk : 1 ≤ scan_depth) :
    encodeScan G reg sha zc [] seed_id seed_hex scan_depth
      = .ok ({ seed_id := seed_id,
               seed_hex := if strTruthy seed_hex then seed_hex else none,
               offset := 0, length := 0, checksum := sha [], mode := "stream",
               metadata := { scan_chunks := some 1 } }, 1) := by
  simp only [encodeScan, hres]
  obtain ⟨fuel, hfuel⟩ : ∃ fuel, scan_depth.toNat = fuel + 1 :=
    ⟨scan_depth.toNat - 1, by omega⟩
  rw [hfuel, scanLoop]
  simp [bytesFind_nil]

/-- Witness for the amended C6 at a concrete seed and depth. -/
theorem encode_empty_stream_witness :
    encodeScan W.G0 W.reg0 W.sha0 W.zc0 [] "golden_ratio" none 1000
      = .ok ({ seed_id := "golden_ratio", seed_hex := none, offset := 0,
               length := 0, checksum := W.sha0 [], mode := "stream",
               metadata := { scan_chunks := some 1 } }, 1) :=
  encode_empty_stream W.G0 W.reg0 W.sha0 W.zc0 "golden_ratio" none 1000
    "abc123" rfl (by decide)

/-- The mode/payload invariant exactly as the spec words it (C5): stream
mode has no delta payload; delta mode has exactly one of the raw delta and
the compressed delta, whose decompressed length equals the length field. -/
def specModePayloadInvariant (zd : List Nat → Option (List Nat))
    (e : SeedEnvelope) : Prop :=
  (e.mode = "stream" → e.delta = none ∧ e.delta_compressed = none) ∧
  (e.mode = "delta" →
    ((e.delta ≠ none ∧ e.delta_compressed = none) ∨
     (e.delta = none ∧ e.delta_compressed ≠ none)) ∧
    (∀ d, e.delta = some d → d.length = e.length) ∧
    (∀ dc, e.delta_compressed = some dc →
       ∃ d, zd dc = some d ∧ d.length = e.length))

/-- Concrete delta-mode envelope produced by `encode` (C5). -/
def W.env5 : SeedEnvelope :=
  { seed_id := "golden_ratio", seed_hex := none, offset := 0, length := 1,
    checksum := W.sha0 [1], mode := "delta", delta := some [1],
    delta_compressed := some [7, 1],
    metadata := { delta_raw_size := some 1, delta_compressed_size := some 2 } }

/-- C5 counterexample: `encode` itself emits a delta envelope carrying BOTH
the raw delta and the compressed delta, so "exactly one of the raw delta and
the compressed delta is present" fails on codec-produced envelopes. -/
theorem mode_payload_invariant_counterexample :
    ¬ (∀ env, encode W.G0 W.reg0 W.sha0 W.zc0 [1] "golden_ratio" none 1 = .ok env →
        specModePayloadInvariant W.zd0 env) := by
  intro h
  have henv : encode W.G0 W.reg0 W.sha0 W.zc0 [1] "golden_ratio" none 1
      = .ok W.env5 := rfl
  obtain ⟨-, hdelta⟩ := h W.env5 henv
  obtain ⟨hxor, -, -⟩ := hdelta rfl
  rcases hxor with ⟨-, hco⟩ | ⟨hd, -⟩
  · exact absurd hco (by decide)
  · exact absurd hd (by decide)

/-- C5 amended: every envelope `encode` produces satisfies: stream mode
carries no delta payload at all; delta mode carries BOTH the raw delta and
its compression, the raw delta has length equal to the length field, and
the compressed delta decompresses back to it. -/
theorem encode_mode_payload (G : String → Nat → List Nat)
    (reg : String → Option String) (sha : List Nat → List Nat)
    (zc : List Nat → List Nat) (zd : List Nat → Option (List Nat))
    (data : List Nat) (seed_id : String) (seed_hex : Option String)
    (scan_depth : Int) (env : SeedEnvelope)
    (h16 : ∀ s i, (G s i).length = 16)
    (hz : ∀ x, zd (zc x) = some x)
    (henv : encode G reg sha zc data seed_id seed_hex scan_depth = .ok env) :
    (env.mode = "stream" ∧ env.delta = none ∧ env.delta_compressed = none) ∨
    (env.mode = "delta" ∧ ∃ d, env.delta = some d ∧
       env.delta_compressed = some (zc d) ∧ d.length = env.length ∧
       zd (zc d) = some d) := by
  rw [encode] at henv
  cases hs : encodeScan G reg sha zc data seed_id seed_hex scan_depth with
  | error e => rw [hs] at henv; exact absurd henv (by simp [Except.map])
  | ok p =>
    obtain ⟨env2, used⟩ := p
    rw [hs] at henv
    simp only [Except.map, Except.ok.injEq] at henv
    subst henv
    cases hres : _resolve_seed_hex reg seed_id seed_hex with
    | error e =>
      rw [encodeScan, hres] at hs
      exact absurd hs (by simp)
    | ok hex =>
      cases hscan : scanLoop (G hex) data scan_depth.toNat 0 [] with
      | some pu =>
        obtain ⟨pos, u2⟩ := pu
        rw [encodeScan, hres] at hs
        simp only [hscan, Except.ok.injEq, Prod.mk.injEq] at hs
        obtain ⟨hs1, -⟩ := hs
        subst hs1
        exact Or.inl ⟨rfl, rfl, rfl⟩
      | none =>
        rw [encodeScan, hres] at hs
        simp only [hscan, Except.ok.injEq, Prod.mk.injEq] at hs
        obtain ⟨hs1, -⟩ := hs
        subst hs1
        refine Or.inr ⟨rfl, List.zipWith (fun a b => a ^^^ b) data
          (_generate_stream_bytes (G hex) 0 data.length), rfl, rfl, ?_, hz _⟩
        show (List.zipWith (fun a b => a ^^^ b) data
          (_generate_stream_bytes (G hex) 0 data.length)).length = data.length
        rw [List.length_zipWith, gsb_length _ (h16 hex)]
        omega

/-- Witness for the amended C5 at the delta-producing concrete input. -/
theorem encode_mode_payload_witness :
    (W.env5.mode = "stream" ∧ W.env5.delta = none ∧
       W.env5.delta_compressed = none) ∨
    (W.env5.mode = "delta" ∧ ∃ d, W.env5.delta = some d ∧
       W.env5.delta_compressed = some (W.zc0 d) ∧ d.length = W.env5.length ∧
       W.zd0 (W.zc0 d) = some d) :=
  encode_mode_payload W.G0 W.reg0 W.sha0 W.zc0 W.zd0 [1] "golden_ratio" none 1
    W.env5 W.G0_len W.zd0_zc0 rfl

/-- C7: the binary envelope is never empty (the magic bytes and fixed header
alone make it non-empty), the `compression_ratio` property therefore equals
`length / envelope_size` (its zero-size branch is unreachable), and the
statistics ratio is never reported as infinite. -/
theorem compression_ratio_spec (utf8enc : String → List Nat)
    (zc : List Nat → List Nat) (data : List Nat) (e : SeedEnvelope) :
    0 < envelope_size utf8enc zc e ∧
    compression_ratio utf8enc zc e
      = (e.length : ℚ) / (envelope_size utf8enc zc e : ℚ) ∧
    compression_stats_ratio utf8enc zc data e ≠ none := by
  have hpos : 0 < envelope_size utf8enc zc e := by
    rw [envelope_size, to_binary]
    simp [ENVELOPE_MAGIC]
  refine ⟨hpos, ?_, ?_⟩
  · rw [compression_ratio, if_neg (by omega)]
  · rw [compression_stats_ratio, if_pos hpos]
    simp

/-- Catalog and entry for the C8 witness. -/
def W.env8 : SeedEnvelope :=
  { seed_id := "golden_ratio", offset := 0, length := 2,
    checksum := W.sha0 [0, 0], mode := "catalog", catalog_key := some "a" }

def W.cat0 : SeedCatalog := fun k => if k = "a" then some W.env8 else none

/-- C8: `decode_entry` leaves the catalog exactly as it found it (the
`finally` block restores the entry's original mode whether `decode` returned
or raised), a missing key fails with `KeyNotFound`, and a present entry is
decoded with mode `stream` substituted when the entry is catalog-tagged. -/
theorem decode_entry_spec (G : String → Nat → List Nat)
    (reg : String → Option String) (zd : List Nat → Option (List Nat))
    (sha : List Nat → List Nat) (cat : SeedCatalog) (key : String) :
    (decode_entry G reg zd sha cat key).2 = cat ∧
    (cat key = none →
       (decode_entry G reg zd sha cat key).1 = .error .KeyNotFound) ∧
    (∀ env, cat key = some env →
       (decode_entry G reg zd sha cat key).1
         = decode G reg zd sha
             (if env.mode = "catalog" then { env with mode := "stream" }
              else env)) := by
  cases hk : cat key with
  | none =>
    have hred : decode_entry G reg zd sha cat key = (.error .KeyNotFound, cat) := by
      rw [decode_entry, hk]
    refine ⟨by rw [hred], fun _ => by rw [hred], fun env henv => ?_⟩
    exact Option.noConfusion henv
  | some env0 =>
    have hred : decode_entry G reg zd sha cat key
        = (decode G reg zd sha
             (if env0.mode = "catalog" then { env0 with mode := "stream" }
              else env0),
           catalogUpdate
             (catalogUpdate cat key
               (if env0.mode = "catalog" then { env0 with mode := "stream" }
                else env0))
             key
             { (if env0.mode = "catalog" then { env0 with mode := "stream" }
                else env0) with mode := env0.mode }) := by
      rw [decode_entry, hk]
    have hrestore :
        ({ (if env0.mode = "catalog" then { env0 with mode := "stream" }
            else env0) with mode := env0.mode } : SeedEnvelope) = env0 := by
      by_cases hcat : env0.mode = "catalog"
      · rw [if_pos hcat]
      · rw [if_neg hcat]
    refine ⟨?_, fun hnone => ?_, fun env henv => ?_⟩
    · rw [hred, hrestore]
      funext k
      simp only [catalogUpdate]
      by_cases hkk : k = key
      · rw [if_pos hkk, hkk, hk]
      · rw [if_neg hkk, if_neg hkk]
    · exact Option.noConfusion hnone
    · injection henv with h2
      subst h2
      rw [hred]

/-- Witness for C8: mode restoration, missing-key error, and catalog-entry
retag at a concrete single-entry catalog. -/
theorem decode_entry_spec_witness :
    (decode_entry W.G0 W.reg0 W.zd0 W.sha0 W.cat0 "a").2 = W.cat0 ∧
    (decode_entry W.G0 W.reg0 W.zd0 W.sha0 W.cat0 "missing").1
      = .error .KeyNotFound ∧
    (decode_entry W.G0 W.reg0 W.zd0 W.sha0 W.cat0 "a").1
      = decode W.G0 W.reg0 W.zd0 W.sha0 { W.env8 with mode := "stream" } :=
  ⟨(decode_entry_spec W.G0 W.reg0 W.zd0 W.sha0 W.cat0 "a").1,
   (decode_entry_spec W.G0 W.reg0 W.zd0 W.sha0 W.cat0 "missing").2.1 rfl,
   (decode_entry_spec W.G0 W.reg0 W.zd0 W.sha0 W.cat0 "a").2.2 W.env8 rfl⟩

/-! ### Binary serialization lemmas -/

theorem leEncode_length : ∀ (w n : Nat), (leEncode w n).length = w := by
  intro w
  induction w with
  | zero => intro n; rfl
  | succ w ih => intro n; simp [leEncode, ih]

theorem leDecode_leEncode : ∀ (w n : Nat), leDecode (leEncode w n) = n % 256 ^ w := by
  intro w
  induction w with
  | zero => intro n; show 0 = n % 1; omega
  | succ w ih =>
    intro n
    rw [leEncode, leDecode, ih, pow_succ', Nat.mod_mul]

theorem leDecode_leEncode_of_lt (w n : Nat) (h : n < 256 ^ w) :
    leDecode (leEncode w n) = n := by
  rw [leDecode_leEncode, Nat.mod_eq_of_lt h]

/-- `from_binary` on a well-shaped buffer, fully parsed. -/
theorem from_binary_parse (utf8dec : List Nat → String) (v mb : Nat)
    (sid p8a p8b ck d4 dc : List Nat)
    (hsid : sid.length < 65536) (h8a : p8a.length = 8) (h8b : p8b.length = 8)
    (hck : ck.length = 32) (hd4 : d4.length = 4) :
    from_binary utf8dec
      (ENVELOPE_MAGIC ++ [v, mb] ++ leEncode 2 sid.length ++ sid
        ++ p8a ++ p8b ++ ck ++ d4 ++ dc)
      = .ok { version := v, seed_id := utf8dec sid, offset := leDecode p8a,
              length := leDecode p8b, checksum := ck, mode := modeStr mb,
              delta_compressed :=
                if leDecode d4 > 0 then some (dc.take (leDecode d4)) else none } := by
  have hdata : ENVELOPE_MAGIC ++ [v, mb] ++ leEncode 2 sid.length ++ sid
      ++ p8a ++ p8b ++ ck ++ d4 ++ dc
      = 71 :: 81 :: 83 :: 69 :: v :: mb :: (sid.length % 256)
          :: (sid.length / 256 % 256)
          :: (sid ++ (p8a ++ (p8b ++ (ck ++ (d4 ++ dc))))) := by
    simp [ENVELOPE_MAGIC, leEncode]
  rw [hdata]
  have hlen : (71 :: 81 :: 83 :: 69 :: v :: mb :: (sid.length % 256)
      :: (sid.length / 256 % 256)
      :: (sid ++ (p8a ++ (p8b ++ (ck ++ (d4 ++ dc)))))).length
      = 60 + sid.length + dc.length := by
    simp [h8a, h8b, hck, hd4]
    omega
  have hsl : leDecode (((71 :: 81 :: 83 :: 69 :: v :: mb :: (sid.length % 256)
      :: (sid.length / 256 % 256)
      :: (sid ++ (p8a ++ (p8b ++ (ck ++ (d4 ++ dc)))))).drop 6).take 2)
      = sid.length := by
    show leDecode [sid.length % 256, sid.length / 256 % 256] = sid.length
    show sid.length % 256 + 256 * (sid.length / 256 % 256 + 256 * 0) = sid.length
    omega
  have hdrop8 : (71 :: 81 :: 83 :: 69 :: v :: mb :: (sid.length % 256)
      :: (sid.length / 256 % 256)
      :: (sid ++ (p8a ++ (p8b ++ (ck ++ (d4 ++ dc)))))).drop 8
      = sid ++ (p8a ++ (p8b ++ (ck ++ (d4 ++ dc)))) := rfl
  have hdropsid : (71 :: 81 :: 83 :: 69 :: v :: mb :: (sid.length % 256)
      :: (sid.length / 256 % 256)
      :: (sid ++ (p8a ++ (p8b ++ (ck ++ (d4 ++ dc)))))).drop (8 + sid.length)
      = p8a ++ (p8b ++ (ck ++ (d4 ++ dc))) := by
    rw [← List.drop_drop, hdrop8, List.drop_left]
  have hdrop16 : (71 :: 81 :: 83 :: 69 :: v :: mb :: (sid.length % 256)
      :: (sid.length / 256 % 256)
      :: (sid ++ (p8a ++ (p8b ++ (ck ++ (d4 ++ dc)))))).drop (8 + sid.length + 8)
      = p8b ++ (ck ++ (d4 ++ dc)) := by
    rw [← List.drop_drop, hdropsid, ← h8a, List.drop_left]
  have hdropck : (71 :: 81 :: 83 :: 69 :: v :: mb :: (sid.length % 256)
      :: (sid.length / 256 % 256)
      :: (sid ++ (p8a ++ (p8b ++ (ck ++ (d4 ++ dc)))))).drop (8 + sid.length + 16)
      = ck ++ (d4 ++ dc) := by
    rw [show 8 + sid.length + 16 = 8 + sid.length + 8 + 8 from by omega,
      ← List.drop_drop, hdrop16, ← h8b, List.drop_left]
  have hdropd4 : (71 :: 81 :: 83 :: 69 :: v :: mb :: (sid.length % 256)
      :: (sid.length / 256 % 256)
      :: (sid ++ (p8a ++ (p8b ++ (ck ++ (d4 ++ dc)))))).drop (8 + sid.length + 48)
      = d4 ++ dc := by
    rw [show 8 + sid.length + 48 = 8 + sid.length + 16 + 32 from by omega,
      ← List.drop_drop, hdropck, ← hck, List.drop_left]
  have hdropdc : (71 :: 81 :: 83 :: 69 :: v :: mb :: (sid.length % 256)
      :: (sid.length / 256 % 256)
      :: (sid ++ (p8a ++ (p8b ++ (ck ++ (d4 ++ dc)))))).drop (8 + sid.length + 52)
      = dc := by
    rw [show 8 + sid.length + 52 = 8 + sid.length + 48 + 4 from by omega,
      ← List.drop_drop, hdropd4, ← hd4, List.drop_left]
  have hmagic4 : (71 :: 81 :: 83 :: 69 :: v :: mb :: (sid.length % 256)
      :: (sid.length / 256 % 256)
      :: (sid ++ (p8a ++ (p8b ++ (ck ++ (d4 ++ dc)))))).take 4
      = ENVELOPE_MAGIC := rfl
  simp only [from_binary, hsl, hmagic4]
  have htake8a : (p8a ++ (p8b ++ (ck ++ (d4 ++ dc)))).take 8 = p8a := by
    rw [← h8a, List.take_left]
  have htake8b : (p8b ++ (ck ++ (d4 ++ dc))).take 8 = p8b := by
    rw [← h8b, List.take_left]
  have htakeck : (ck ++ (d4 ++ dc)).take 32 = ck := by
    rw [← hck, List.take_left]
  have htaked4 : (d4 ++ dc).take 4 = d4 := by
    rw [← hd4, List.take_left]
  rw [if_neg (not_not_intro (rfl : ENVELOPE_MAGIC = ENVELOPE_MAGIC)),
    if_neg (by rw [hlen]; omega),
    if_neg (by rw [hlen]; omega), if_neg (by rw [hlen]; omega),
    hdrop8, hdropsid, hdrop16, hdropck, hdropd4, hdropdc,
    List.take_left, htake8a, htake8b, htakeck, htaked4]
  rfl

theorem resolve_none_of_falsy (reg : String → Option String) (sid : String)
    (sh : Option String) (h : strTruthy sh = false) :
    _resolve_seed_hex reg sid none = _resolve_seed_hex reg sid sh := by
  have hnone : strTruthy none = false := rfl
  simp only [_resolve_seed_hex, h, hnone]
  simp

/-- The JSON round trip changes no field that reconstruction reads, so the
reconstructed envelope decodes exactly like the original — with no validity
assumptions at all. -/
theorem from_dict_to_dict_decode (G : String → Nat → List Nat)
    (reg : String → Option String) (zd : List Nat → Option (List Nat))
    (sha : List Nat → List Nat) (e : SeedEnvelope) :
    decode G reg zd sha (from_dict (to_dict e)) = decode G reg zd sha e := by
  have hrecon : reconstruct G reg zd (from_dict (to_dict e))
      = reconstruct G reg zd e := by
    cases hdc : e.delta_compressed with
    | some dcv => simp only [reconstruct, from_dict, to_dict, hdc, resolve_norm]
    | none => simp only [reconstruct, from_dict, to_dict, hdc, resolve_norm]
  have hck2 : (from_dict (to_dict e)).checksum = e.checksum := rfl
  rw [decode, decode, hrecon, hck2]

/-- An envelope of the shape `from_binary` produces (no explicit seed, no raw
delta) decodes like `e` whenever its delta payload extracts to the same bytes
as `e`'s. -/
theorem decode_binparsed_eq (G : String → Nat → List Nat)
    (reg : String → Option String) (zd : List Nat → Option (List Nat))
    (sha : List Nat → List Nat) (e : SeedEnvelope) (v2 : Nat)
    (DC : Option (List Nat))
    (hshx : strTruthy e.seed_hex = false)
    (hmode : e.mode = "stream" ∨ e.mode = "delta" ∨ e.mode = "catalog")
    (hDC : (∃ dcv, e.delta_compressed = some dcv ∧ DC = some dcv) ∨
           (e.delta_compressed = none ∧
             ∃ d dcx, e.delta = some d ∧ DC = some dcx ∧ zd dcx = some d) ∨
           (e.delta_compressed = none ∧ e.delta = none ∧ DC = none)) :
    decode G reg zd sha
      { version := v2, seed_id := e.seed_id, seed_hex := none,
        offset := e.offset, length := e.length, checksum := e.checksum,
        mode := e.mode, delta := none, delta_compressed := DC }
      = decode G reg zd sha e := by
  have hresolve := resolve_none_of_falsy reg e.seed_id e.seed_hex hshx
  have hrecon : reconstruct G reg zd
      { version := v2, seed_id := e.seed_id, seed_hex := none,
        offset := e.offset, length := e.length, checksum := e.checksum,
        mode := e.mode, delta := none, delta_compressed := DC }
      = reconstruct G reg zd e := by
    simp only [reconstruct, hresolve]
    cases hr : _resolve_seed_hex reg e.seed_id e.seed_hex with
    | error err => rfl
    | ok hex =>
      rcases hmode with hm | hm | hm
      · simp [hm]
      · simp only [hm]
        simp only [show ("delta" = "stream") = False from by simp, if_false,
          show ("delta" = "delta") = True from by simp, if_true]
        rcases hDC with ⟨dcv, hdc1, hdc2⟩ | ⟨hdc1, d, dcx, hdel, hdc2, hzd⟩
          | ⟨hdc1, hdel, hdc2⟩
        · simp only [hdc1, hdc2]
        · simp only [hdc1, hdc2, hdel, hzd]
        · simp only [hdc1, hdel, hdc2]
      · simp [hm]
  have hck2 :
      ({ version := v2, seed_id := e.seed_id, seed_hex := none,
         offset := e.offset, length := e.length, checksum := e.checksum,
         mode := e.mode, delta := none,
         delta_compressed := DC } : SeedEnvelope).checksum = e.checksum := rfl
  rw [decode, decode, hrecon, hck2]

set_option maxHeartbeats 1600000 in
/-- C4 amended: the JSON round trip `from_dict (to_dict e)` reconstructs an
envelope decoding to the same bytes for every valid envelope, custom
explicit `seed_hex` included; the binary round trip `from_binary
(to_binary e)` does so for valid envelopes that do NOT carry a custom
explicit `seed_hex` (`to_binary` never serializes `seed_hex`, so
custom-seed envelopes can reconstruct differently). -/
theorem serialization_roundtrip_amended (G : String → Nat → List Nat)
    (reg : String → Option String) (zd : List Nat → Option (List Nat))
    (sha : List Nat → List Nat) (zc : List Nat → List Nat)
    (utf8enc : String → List Nat) (utf8dec : List Nat → String)
    (e : SeedEnvelope)
    (hsidrt : utf8dec (utf8enc e.seed_id) = e.seed_id)
    (hz : ∀ x, zd (zc x) = some x) (hzne : ∀ x, zc x ≠ [])
    (hsid : (utf8enc e.seed_id).length < 65536)
    (hoff : e.offset < 2 ^ 64) (hlen : e.length < 2 ^ 64)
    (hck : e.checksum.length = 32)
    (hdcv : ∀ d, e.delta_compressed = some d → d ≠ [] ∧ d.length < 2 ^ 32)
    (hdr : ∀ d, e.delta = some d → (zc d).length < 2 ^ 32)
    (hmode : e.mode = "stream" ∨ e.mode = "delta" ∨ e.mode = "catalog") :
    (strTruthy e.seed_hex = false →
       ∀ e2, from_binary utf8dec (to_binary utf8enc zc e) = .ok e2 →
         decode G reg zd sha e2 = decode G reg zd sha e) ∧
    decode G reg zd sha (from_dict (to_dict e)) = decode G reg zd sha e := by
  refine ⟨fun hshx => ?_, from_dict_to_dict_decode G reg zd sha e⟩
  have hmode_eq : modeStr (modeByte e.mode) = e.mode := by
    rcases hmode with h | h | h <;> rw [h] <;> rfl
  have h256_8 : (2:Nat) ^ 64 = 256 ^ 8 := by norm_num
  have h256_4 : (2:Nat) ^ 32 = 256 ^ 4 := by norm_num
  have hoffdec : leDecode (leEncode 8 e.offset) = e.offset :=
    leDecode_leEncode_of_lt 8 _ (by rw [← h256_8]; exact hoff)
  have hlendec : leDecode (leEncode 8 e.length) = e.length :=
    leDecode_leEncode_of_lt 8 _ (by rw [← h256_8]; exact hlen)
  cases hdcase : e.delta_compressed with
  | some dcv =>
    obtain ⟨hdne, hdlt⟩ := hdcv dcv hdcase
    have hbin : to_binary utf8enc zc e
        = ENVELOPE_MAGIC ++ [e.version, modeByte e.mode]
          ++ leEncode 2 (utf8enc e.seed_id).length ++ utf8enc e.seed_id
          ++ leEncode 8 e.offset ++ leEncode 8 e.length ++ e.checksum
          ++ leEncode 4 dcv.length ++ dcv := by
      simp only [to_binary, hdcase]
      simp [List.append_assoc]
    have hdcdec : leDecode (leEncode 4 dcv.length) = dcv.length :=
      leDecode_leEncode_of_lt 4 _ (by rw [← h256_4]; exact hdlt)
    have hfb : from_binary utf8dec (to_binary utf8enc zc e)
        = .ok { version := e.version, seed_id := e.seed_id, offset := e.offset,
                length := e.length, checksum := e.checksum, mode := e.mode,
                delta_compressed := some dcv } := by
      rw [hbin, from_binary_parse utf8dec e.version (modeByte e.mode)
        (utf8enc e.seed_id) (leEncode 8 e.offset) (leEncode 8 e.length)
        e.checksum (leEncode 4 dcv.length) dcv hsid (leEncode_length 8 _)
        (leEncode_length 8 _) hck (leEncode_length 4 _),
        hsidrt, hoffdec, hlendec, hmode_eq, hdcdec,
        if_pos (List.length_pos.mpr hdne), List.take_length]
    intro e2 hfb2
    rw [hfb] at hfb2
    injection hfb2 with h2
    subst h2
    exact decode_binparsed_eq G reg zd sha e e.version (some dcv) hshx hmode
      (Or.inl ⟨dcv, hdcase, rfl⟩)
  | none =>
    cases hdel : e.delta with
    | some d =>
      have hzlen := hdr d hdel
      have hbin : to_binary utf8enc zc e
          = ENVELOPE_MAGIC ++ [e.version, modeByte e.mode]
            ++ leEncode 2 (utf8enc e.seed_id).length ++ utf8enc e.seed_id
            ++ leEncode 8 e.offset ++ leEncode 8 e.length ++ e.checksum
            ++ leEncode 4 (zc d).length ++ zc d := by
        simp only [to_binary, hdcase, hdel]
        simp [List.append_assoc]
      have hdcdec : leDecode (leEncode 4 (zc d).length) = (zc d).length :=
        leDecode_leEncode_of_lt 4 _ (by rw [← h256_4]; exact hzlen)
      have hfb : from_binary utf8dec (to_binary utf8enc zc e)
          = .ok { version := e.version, seed_id := e.seed_id,
                  offset := e.offset, length := e.length,
                  checksum := e.checksum, mode := e.mode,
                  delta_compressed := some (zc d) } := by
        rw [hbin, from_binary_parse utf8dec e.version (modeByte e.mode)
          (utf8enc e.seed_id) (leEncode 8 e.offset) (leEncode 8 e.length)
          e.checksum (leEncode 4 (zc d).length) (zc d) hsid
          (leEncode_length 8 _) (leEncode_length 8 _) hck
          (leEncode_length 4 _),
          hsidrt, hoffdec, hlendec, hmode_eq, hdcdec,
          if_pos (List.length_pos.mpr (hzne d)), List.take_length]
      intro e2 hfb2
      rw [hfb] at hfb2
      injection hfb2 with h2
      subst h2
      exact decode_binparsed_eq G reg zd sha e e.version (some (zc d)) hshx
        hmode (Or.inr (Or.inl ⟨hdcase, d, zc d, hdel, rfl, hz d⟩))
    | none =>
      have hbin : to_binary utf8enc zc e
          = ENVELOPE_MAGIC ++ [e.version, modeByte e.mode]
            ++ leEncode 2 (utf8enc e.seed_id).length ++ utf8enc e.seed_id
            ++ leEncode 8 e.offset ++ leEncode 8 e.length ++ e.checksum
            ++ leEncode 4 0 ++ ([] : List Nat) := by
        simp only [to_binary, hdcase, hdel]
        simp [List.append_assoc]
      have hdcdec : leDecode (leEncode 4 0) = 0 :=
        leDecode_leEncode_of_lt 4 0 (by positivity)
      have hfb : from_binary utf8dec (to_binary utf8enc zc e)
          = .ok { version := e.version, seed_id := e.seed_id,
                  offset := e.offset, length := e.length,
                  checksum := e.checksum, mode := e.mode,
                  delta_compressed := none } := by
        rw [hbin, from_binary_parse utf8dec e.version (modeByte e.mode)
          (utf8enc e.seed_id) (leEncode 8 e.offset) (leEncode 8 e.length)
          e.checksum (leEncode 4 0) [] hsid (leEncode_length 8 _)
          (leEncode_length 8 _) hck (leEncode_length 4 _),
          hsidrt, hoffdec, hlendec, hmode_eq, hdcdec, if_neg (by omega)]
      intro e2 hfb2
      rw [hfb] at hfb2
      injection hfb2 with h2
      subst h2
      exact decode_binparsed_eq G reg zd sha e e.version none hshx hmode
        (Or.inr (Or.inr ⟨hdcase, hdel, rfl⟩))

/-- Two-seed generator for the C4 counterexample: the custom seed "aa"
streams ones, every other seed streams zeros. -/
def W.Gc : String → Nat → List Nat :=
  fun s _ => List.replicate 16 (if s = "aa" then 1 else 0)

/-- Decodable stream envelope carrying a custom explicit seed (C4). -/
def W.e1c : SeedEnvelope :=
  { seed_id := "golden_ratio", seed_hex := some "aa", offset := 0, length := 1,
    checksum := List.replicate 32 1, mode := "stream" }

/-- C4 counterexample: `to_binary` does not serialize `seed_hex`, so for an
envelope with a custom explicit seed the binary round trip reconstructs an
envelope that decodes via the registry seed to different bytes (`[0]`
instead of `[1]`). -/
theorem serialization_roundtrip_counterexample :
    decode W.Gc W.reg0 W.zd0 W.sha0 W.e1c = .ok [1] ∧
    (match from_binary W.utf8dec0 (to_binary W.utf8enc0 W.zc0 W.e1c) with
     | .ok e2 => decode W.Gc W.reg0 W.zd0 W.sha0 e2
     | .error err => .error err) ≠ .ok [1] := by
  refine ⟨rfl, ?_⟩
  have hcomp : (match from_binary W.utf8dec0 (to_binary W.utf8enc0 W.zc0 W.e1c) with
     | .ok e2 => decode W.Gc W.reg0 W.zd0 W.sha0 e2
     | .error err => .error err) = .ok [0] := rfl
  rw [hcomp]
  intro hcontra
  injection hcontra with h2
  exact absurd h2 (by decide)

/-- Raw-delta envelope exercising the amended C4 (witness). -/
def W.env4 : SeedEnvelope :=
  { seed_id := "golden_ratio", seed_hex := none, offset := 0, length := 1,
    checksum := List.replicate 32 1, mode := "delta", delta := some [5],
    delta_compressed := none }

/-- The same envelope carrying a custom explicit seed, exercising the
unconditional JSON half of the amended C4 (witness). -/
def W.env4b : SeedEnvelope :=
  { seed_id := "golden_ratio", seed_hex := some "aa", offset := 0, length := 1,
    checksum := List.replicate 32 1, mode := "delta", delta := some [5],
    delta_compressed := none }

/-- Witness for the amended C4: the JSON round trip of a concrete custom-seed
raw-delta envelope and of its registry-seed variant, and the binary round
trip of the latter, all decode like the originals. -/
theorem serialization_roundtrip_amended_witness :
    decode W.G0 W.reg0 W.zd0 W.sha0 (from_dict (to_dict W.env4b))
      = decode W.G0 W.reg0 W.zd0 W.sha0 W.env4b ∧
    decode W.G0 W.reg0 W.zd0 W.sha0 (from_dict (to_dict W.env4))
      = decode W.G0 W.reg0 W.zd0 W.sha0 W.env4 ∧
    decode W.G0 W.reg0 W.zd0 W.sha0
      { version := 1, seed_id := "golden_ratio", offset := 0, length := 1,
        checksum := List.replicate 32 1, mode := "delta",
        delta_compressed := some [7, 5] }
      = decode W.G0 W.reg0 W.zd0 W.sha0 W.env4 :=
  ⟨(serialization_roundtrip_amended W.G0 W.reg0 W.zd0 W.sha0 W.zc0 W.utf8enc0
      W.utf8dec0 W.env4b rfl W.zd0_zc0 (fun x => List.cons_ne_nil 7 x)
      (by decide) (by decide) (by decide) (by decide)
      (fun d h => Option.noConfusion h)
      (fun d h => by injection h with h2; subst h2; decide)
      (Or.inr (Or.inl rfl))).2,
   (serialization_roundtrip_amended W.G0 W.reg0 W.zd0 W.sha0 W.zc0 W.utf8enc0
      W.utf8dec0 W.env4 rfl W.zd0_zc0 (fun x => List.cons_ne_nil 7 x)
      (by decide) (by decide) (by decide) (by decide)
      (fun d h => Option.noConfusion h)
      (fun d h => by injection h with h2; subst h2; decide)
      (Or.inr (Or.inl rfl))).2,
   (serialization_roundtrip_amended W.G0 W.reg0 W.zd0 W.sha0 W.zc0 W.utf8enc0
      W.utf8dec0 W.env4 rfl W.zd0_zc0 (fun x => List.cons_ne_nil 7 x)
      (by decide) (by decide) (by decide) (by decide)
      (fun d h => Option.noConfusion h)
      (fun d h => by injection h with h2; subst h2; decide)
      (Or.inr (Or.inl rfl))).1 rfl
     { version := 1, seed_id := "golden_ratio", offset := 0, length := 1,
       checksum := List.replicate 32 1, mode := "delta",
       delta_compressed := some [7, 5] } rfl⟩

end GQ
